import Mathlib

/-!
Verification of the renderless solid JSON-logic interpreter.

This file gives a shallow embedding of the rule interpreter in
`src/lib/Interpreter.ts` together with the signal/registry primitives it uses
from `src/lib/solid.ts` and the renderless control-flow module
(`src/unnamed/part_000`), and proves the spec claims about them.

Modelling decisions (documented once here):

* JavaScript values are modelled by the inductive type `Value`.  Numbers are
  modelled as `Int` (none of the claims involves fractional or non-finite
  arithmetic).  Function values of the source appear as dedicated
  constructors: `hostFn` (an opaque host callback placed in the initial data
  context), `getter`/`setter` (the reader and writer of a signal; the writer
  being "attached as the `set` property" of the reader is modelled by
  `refSet`), `acc` (a constant accessor such as the index accessor that
  `mapArray` passes to the `For` callback), and `closure` (the function value
  produced by the `lambda` operator).

* The mutable runtime state — the signal store backing `createSignal`, the
  module-level `globalSignals` registry, the module-level `currentContext`
  register of `Interpreter.ts`, and the observable actions performed by a run
  (host-callback invocations, `console.log` output, registered cleanup
  callbacks) — is a record `St`, threaded through the state-and-exception
  monad `M`.

* Host callbacks are arbitrary code.  They are modelled by a behaviour
  parameter `hb : String → List Value → Value` (the value a host callback
  returns), plus an entry appended to `St.trace` at each invocation, so that
  theorems quantify over every possible family of host callbacks.

* The evaluator is a tree walk that can re-enter captured sub-rules (lazy
  nodes, closures), so it is presented fuel-indexed: `interp` recurses
  structurally on a fuel counter and answers `Err.outOfFuel` when the fuel is
  exhausted.  Running out of fuel is modelled as an exception, which the
  save/restore discipline of `exec` must survive just like any other thrown
  error.

* Of `json-logic-js` the embedding covers exactly the fragment the
  interpreter and the claims exercise: array rules map evaluation over their
  elements, an object with exactly one key is an operator node whose
  (normalised) arguments are evaluated eagerly before dispatch, every other
  value evaluates to itself, and the built-in `var` operation resolves
  dotted paths against the data context.  Remaining built-in operations of
  the library are outside the fragment and answer `Err.unsupportedOp`.

* Of solid-js, `createSignal` is modelled in the store (a writer applied to a
  function value uses it as an updater of the previous value, as solid
  setters do), and `createComputed`/`mapArray` are modelled by their initial
  synchronous run (`showRun`, `forRun`): the claims under verification only
  concern the first evaluation pass, not reactive re-runs.
-/

namespace Renderless

/-- JavaScript runtime values, specialised to what the interpreter handles. -/
inductive Value where
  | undefined
  | null
  | bool (b : Bool)
  | num (n : Int)
  | str (s : String)
  | arr (elems : List Value)
  | obj (fields : List (String × Value))
  | hostFn (name : String)
  | getter (id : Nat)
  | setter (id : Nat)
  | acc (v : Value)
  | closure (ctx : List (String × Value)) (rule : Value)

/-- Execution context: `DataContext = Record<string, any>` of Interpreter.ts,
modelled as an association list with first-match lookup (keys of a JS object
are unique). -/
abbrev Ctx := List (String × Value)

/-- Field access `fields[key]` on a modelled JS object: first matching key. -/
def lookupField : List (String × Value) → String → Option Value
  | [], _ => none
  | (k, v) :: rest, key => if k = key then some v else lookupField rest key

/-- JS truthiness: `undefined`, `null`, `false`, `0`, and the empty string are
falsy; every object, array and function is truthy. -/
def truthy : Value → Bool
  | .undefined => false
  | .null => false
  | .bool b => b
  | .num n => n != 0
  | .str s => s ≠ ""
  | _ => true

/-- Does `typeof v === "function"` hold? True exactly for the function-valued
constructors. -/
def isFunction : Value → Bool
  | .hostFn _ => true
  | .getter _ => true
  | .setter _ => true
  | .acc _ => true
  | .closure _ _ => true
  | _ => false

/-- Translation of `isLazyNode` (Interpreter.ts lines 14-16):
`node && typeof node === "object" && "__lazy" in node && node.__lazy === true
&& "rule" in node`.  Only plain objects pass the `typeof`/truthiness tests;
the lazy tag must be literally `true` and a `rule` key must be present.
Nothing restricts the object to those two keys. -/
def isLazyNode : Value → Bool
  | .obj fs =>
      (match lookupField fs "__lazy" with
       | some (.bool true) => true
       | _ => false)
      && (lookupField fs "rule").isSome
  | _ => false

/-- Access `node.rule` of a lazy node. -/
def ruleOf : Value → Value
  | .obj fs => (lookupField fs "rule").getD .undefined
  | _ => .undefined

/-- Convenience constructor for the lazy-node wire format
`{ "__lazy": true, "rule": r }`. -/
def mkLazy (r : Value) : Value := .obj [("__lazy", .bool true), ("rule", r)]

/-- Predicate written from the words of the spec (section 6): "an object with
exactly `{ "<lazy-tag>": true, "rule": <expr> }` is a LazyNode" — read as: the
object carries exactly those two keys.  It exists only to be compared with
`isLazyNode`, the translation of the source. -/
def specLazyNode : Value → Bool
  | .obj fs =>
      (fs.length == 2)
      && (match lookupField fs "__lazy" with
          | some (.bool true) => true
          | _ => false)
      && (lookupField fs "rule").isSome
  | _ => false

/-- JS array indexing `l[i]` with an `Int` index: out of range gives
`undefined`. -/
def jsIndex (l : List Value) (i : Int) : Value :=
  if i < 0 then .undefined else l.getD i.toNat .undefined

/-- Translation of the `seq` operator body (Interpreter.ts lines 140-142):
`rules[rules.length - 1]`.  With zero arguments the index is `-1`, which in JS
reads as `undefined`. -/
def seqOp (rules : List Value) : Value :=
  jsIndex rules ((rules.length : Int) - 1)

/-- String conversion used where JS coerces a value to a property key or a
`var` path (`String(a)`, computed object keys).  Faithful for primitives; the
conversion of arrays, objects and functions is approximated by constants (no
claim and no rule in the test-suite reaches those cases). -/
def jsStringOf : Value → String
  | .str s => s
  | .num n => toString n
  | .bool b => if b then "true" else "false"
  | .null => "null"
  | .undefined => "undefined"
  | .arr _ => ""
  | .obj _ => "[object Object]"
  | _ => "function"

/-- Context overlay `{ ...ctx, [name]: value }`: the new binding shadows any
binding of the same key in `ctx` (first-match lookup, so prepending wins). -/
def ctxSet (ctx : Ctx) (name : String) (v : Value) : Ctx := (name, v) :: ctx

/-- Child context built by the `$for` operator (Interpreter.ts line 116):
`{ ...ctx, item: item, index: index }`, where `index` is the accessor that
`mapArray` supplies. -/
def forChildCtx (ctx : Ctx) (item : Value) (idx : Value) : Ctx :=
  ("item", item) :: ("index", idx) :: ctx

/-- Translation of the guard in `$set` (Interpreter.ts line 64):
`ref && typeof ref.set === "function"` — the writer found at `ref.set`, if
any.  A signal reader carries its paired writer as the attached `set`
property; on a plain object the `set` field is consulted and must be a
function. -/
def refSet : Value → Option Value
  | .getter id => some (.setter id)
  | .obj fs =>
      match lookupField fs "set" with
      | some f => if isFunction f then some f else none
      | none => none
  | _ => none

/-- Argument normalisation of json-logic-js: `if (!Array.isArray(values))
values = [values]`. -/
def normalizeArgs : Value → List Value
  | .arr es => es
  | v => [v]

/-- List of items `mapArray` iterates over: a JS array gives its elements, a
falsy or non-array value yields no iterations. -/
def toItems : Value → List Value
  | .arr xs => xs
  | _ => []

/-- Accumulator pass of `splitDots`. -/
def splitDotsAux : List Char → List Char → List String
  | [], acc => [String.mk acc.reverse]
  | c :: rest, acc =>
      if c = '.' then String.mk acc.reverse :: splitDotsAux rest []
      else splitDotsAux rest (c :: acc)

/-- JS `String.prototype.split(".")`, over the character list of the string
(the empty string splits to `[""]`, exactly as in JS). -/
def splitDots (s : String) : List String := splitDotsAux s.data []

/-- JS property read `data[prop]` used by the `var` traversal: a missing
property reads as `undefined` (so a property bound to `undefined` and a
missing property are indistinguishable, exactly as in JS). -/
def varGet (v : Value) (seg : String) : Value :=
  match v with
  | .obj fs => (lookupField fs seg).getD .undefined
  | .arr xs => match seg.toNat? with
      | some i => (xs.get? i).getD .undefined
      | none => .undefined
  | .getter id => if seg = "set" then .setter id else .undefined
  | _ => .undefined

/-- Loop of the json-logic `var` traversal
(`if (data === null) return not_found; data = data[sub_props[i]];
if (data === undefined) return not_found;`): at each step a `null` value
stops with the not-found default; then the property is read, and an
`undefined` result — the property missing or bound to `undefined` — also
stops with the not-found default. -/
def varSteps (v : Value) (segs : List String) (notFound : Value) : Value :=
  match segs with
  | [] => v
  | s :: rest =>
      match v with
      | .null => notFound
      | v' =>
          match varGet v' s with
          | .undefined => notFound
          | v'' => varSteps v'' rest notFound

/-- First iteration of the `var` loop: the head segment is read from the data
context itself, which is an object (never `null`, so the null check of the
loop cannot fire there); a result of `undefined` — the key missing or bound
to `undefined` — yields the not-found default. -/
def varPath (d : Ctx) (segs : List String) (notFound : Value) : Value :=
  match segs with
  | [] => .obj d
  | s :: rest =>
      match (lookupField d s).getD .undefined with
      | .undefined => notFound
      | v => varSteps v rest notFound

/-- Translation of the built-in `var` operation of json-logic-js: an empty,
`null` or `undefined` path returns the whole data context; otherwise the
stringified path is split on dots and traversed, with the second argument
(defaulting to `null`) as the not-found result. -/
def varOp (d : Ctx) (vals : List Value) : Value :=
  let a := vals.getD 0 .undefined
  let b := vals.getD 1 .undefined
  let notFound := match b with
    | .undefined => Value.null
    | x => x
  match a with
  | .undefined => .obj d
  | .null => .obj d
  | .str "" => .obj d
  | a => varPath d (splitDots (jsStringOf a)) notFound

/-- Evaluation errors: the registry lookup failure thrown by `Global`, running
out of fuel, and the boundary markers of the modelled fragment. -/
inductive Err where
  | outOfFuel
  | globalNotFound (key : String)
  | unsupportedOp (op : String)
  | nonStringKey
  | notAFunction

/-- The mutable runtime state threaded through evaluation. -/
structure St where
  /-- Store backing `createSignal`: the signal with identifier `i` holds
  `signals[i]`. -/
  signals : List Value
  /-- The `globalSignals` registry: key to signal identifier. -/
  globals : List (String × Nat)
  /-- The module-level `currentContext` register of Interpreter.ts. -/
  reg : Ctx
  /-- Chronological record of host-callback invocations (name, arguments). -/
  trace : List (String × List Value)
  /-- Chronological record of `console.log` output. -/
  logs : List Value
  /-- Cleanup callbacks registered by `$cleanup` (captured context and the
  registered argument). -/
  cleanups : List (Ctx × Value)

/-- The empty initial state (fresh module load). -/
def stInit : St := ⟨[], [], [], [], [], []⟩

/-- State-and-exception monad of the embedding: an exception aborts the
computation but the state reached so far is kept (JS exceptions do not roll
back mutations). -/
def M (α : Type) : Type := St → Except Err α × St

instance : Monad M where
  pure a := fun st => (.ok a, st)
  bind x k := fun st =>
    match x st with
    | (.ok a, st') => k a st'
    | (.error e, st') => (.error e, st')

/-- Throw an error, keeping the state. -/
def throwM (e : Err) : M α := fun st => (.error e, st)

/-- Read the `currentContext` register (what the custom operators close
over). -/
def getReg : M Ctx := fun st => (.ok st.reg, st)

/-- Allocate a fresh signal holding `v`; returns its identifier. -/
def newSignal (v : Value) : M Nat :=
  fun st => (.ok st.signals.length, { st with signals := st.signals ++ [v] })

/-- The current value of signal `id` in a state. -/
def readSignal (st : St) (id : Nat) : Value := st.signals.getD id .undefined

/-- The state after storing `v` in signal `id`. -/
def writeSignal (st : St) (id : Nat) (v : Value) : St :=
  { st with signals := st.signals.set id v }

/-- Record one host-callback invocation. -/
def pushTrace (name : String) (args : List Value) : M Unit :=
  fun st => (.ok (), { st with trace := st.trace ++ [(name, args)] })

/-- Record one `console.log`. -/
def pushLog (v : Value) : M Unit :=
  fun st => (.ok (), { st with logs := st.logs ++ [v] })

/-- Record the registration performed by `$cleanup`. -/
def pushCleanup (ctx : Ctx) (v : Value) : M Unit :=
  fun st => (.ok (), { st with cleanups := st.cleanups ++ [(ctx, v)] })

/-- Registry lookup. -/
def lookupG : List (String × Nat) → String → Option Nat
  | [], _ => none
  | (k, id) :: rest, key => if k = key then some id else lookupG rest key

/-- Translation of `Global` (solid.ts lines 64-72 and the renderless module):
if the key is unregistered, a missing (`undefined`) initial value throws
`Global state not found`, otherwise a fresh signal is created and registered;
in every case the signal registered under the key is returned. -/
def Global (key : String) (initial : Value) : M Nat := fun st =>
  match lookupG st.globals key with
  | some id => (.ok id, st)
  | none =>
      match initial with
      | .undefined => (.error (.globalNotFound key), st)
      | v =>
          (.ok st.signals.length,
           { st with
               signals := st.signals ++ [v],
               globals := (key, st.signals.length) :: st.globals })

/-- Initial synchronous run of the renderless `Show` combinator
(src/unnamed/part_000 lines 21-42): the computation reads the condition once;
if truthy it runs the children thunk, otherwise the fallback thunk, and the
combinator itself returns `undefined`. -/
def showRun (condition children fallback : M Value) : M Value := do
  let c ← condition
  if truthy c then
    let _ ← children
    pure .undefined
  else
    let _ ← fallback
    pure .undefined

/-- Initial synchronous run of the renderless `For` combinator
(src/unnamed/part_000 lines 48-59): `mapArray` invokes the child callback once
per item, in list order, passing the item and its index accessor; the
combinator returns `undefined`. -/
def forRun (child : Value → Nat → M Value) : List Value → Nat → M Value
  | [], _ => pure .undefined
  | x :: xs, i => do
      let _ ← child x i
      forRun child xs (i + 1)

/-- Eager left-to-right evaluation of an operator argument list
(`values.map(v => jsonLogic.apply(v, data))`). -/
def evalList (g : Value → M Value) : List Value → M (List Value)
  | [] => pure []
  | x :: xs => do
      let v ← g x
      let vs ← evalList g xs
      pure (v :: vs)

/-- The kinds of evaluation step: `exec` (Interpreter.ts lines 30-42), the
json-logic `apply` tree walk, operator dispatch after eager argument
evaluation, invocation of a function value, and the `$set` operator body. -/
inductive Task where
  | exec (logic : Value) (data : Ctx)
  | apply (logic : Value) (data : Ctx)
  | dispatch (op : String) (vals : List Value) (data : Ctx)
  | call (fn : Value) (args : List Value)
  | setOp (ref : Value) (value : Value)

section Interp

variable (hb : String → List Value → Value)

/-- Fuel-indexed evaluator covering: `exec` with its save/restore of the
`currentContext` register and its direct unwrapping of lazy nodes; the
json-logic tree walk (arrays map, single-key objects dispatch after eagerly
evaluating normalised arguments, everything else is a literal); the custom
operators registered by Interpreter.ts plus the built-in `var`; and JS
function invocation for the function values of the model. -/
def interp : Nat → Task → M Value
  | 0, _ => throwM .outOfFuel
  | f + 1, .exec logic data => fun st =>
      let prev := st.reg
      let r :=
        (if isLazyNode logic then
          interp f (.exec (ruleOf logic) data)
        else
          interp f (.apply logic data)) { st with reg := data }
      (r.1, { r.2 with reg := prev })
  | f + 1, .apply (.arr xs) data => do
      let vs ← evalList (fun x => interp f (.apply x data)) xs
      pure (.arr vs)
  | f + 1, .apply (.obj [(op, argsJ)]) data => do
      let vals ← evalList (fun x => interp f (.apply x data)) (normalizeArgs argsJ)
      interp f (.dispatch op vals data)
  | _ + 1, .apply (.obj fs) _ => pure (.obj fs)
  | _ + 1, .apply v _ => pure v
  | f + 1, .dispatch op vals data =>
      if op = "var" then
        pure (varOp data vals)
      else if op = "$state" then do
        let id ← newSignal (vals.getD 0 .undefined)
        pure (.getter id)
      else if op = "$global" then
        match vals.getD 0 .undefined with
        | .str key => do
            let id ← Global key (vals.getD 1 .undefined)
            pure (.getter id)
        | _ => throwM .nonStringKey
      else if op = "$set" then
        interp f (.setOp (vals.getD 0 .undefined) (vals.getD 1 .undefined))
      else if op = "$effect" then do
        let ctx ← getReg
        let lazyOrValue := vals.getD 0 .undefined
        if isLazyNode lazyOrValue then do
          let _ ← interp f (.exec (ruleOf lazyOrValue) ctx)
          pure .undefined
        else
          pure .undefined
      else if op = "$cleanup" then do
        let ctx ← getReg
        pushCleanup ctx (vals.getD 0 .undefined)
        pure .undefined
      else if op = "$show" then do
        let ctx ← getReg
        let whenV := vals.getD 0 .undefined
        let childrenV := vals.getD 1 .undefined
        let fallbackV := vals.getD 2 .undefined
        showRun
          (if isLazyNode whenV then interp f (.exec (ruleOf whenV) ctx) else pure whenV)
          (if isLazyNode childrenV then interp f (.exec (ruleOf childrenV) ctx) else pure childrenV)
          (if isLazyNode fallbackV then interp f (.exec (ruleOf fallbackV) ctx) else pure fallbackV)
      else if op = "$for" then do
        let ctx ← getReg
        let listV := vals.getD 0 .undefined
        let childV := vals.getD 1 .undefined
        let items ←
          if isFunction listV then do
            let lv ← interp f (.call listV [])
            pure (toItems lv)
          else
            pure (toItems listV)
        forRun
          (fun item i =>
            if isLazyNode childV then
              interp f (.exec (ruleOf childV) (forChildCtx ctx item (.acc (.num i))))
            else
              pure .undefined)
          items 0
      else if op = "call" then
        let fn := vals.getD 0 .undefined
        if isFunction fn then
          interp f (.call fn (vals.drop 1))
        else
          pure .undefined
      else if op = "log" then do
        pushLog (vals.getD 0 .undefined)
        pure (vals.getD 0 .undefined)
      else if op = "seq" then
        pure (seqOp vals)
      else if op = "def" then do
        let ctx ← getReg
        interp f
          (.exec (vals.getD 2 .undefined)
            (ctxSet ctx (jsStringOf (vals.getD 0 .undefined)) (vals.getD 1 .undefined)))
      else if op = "lambda" then do
        let ctx ← getReg
        pure (.closure ctx (vals.getD 0 .undefined))
      else
        throwM (.unsupportedOp op)
  | _ + 1, .call (.hostFn name) args => do
      pushTrace name args
      pure (hb name args)
  | _ + 1, .call (.acc v) _ => pure v
  | _ + 1, .call (.getter id) _ => fun st => (.ok (readSignal st id), st)
  | f + 1, .call (.setter id) args =>
      let w := args.getD 0 .undefined
      if isFunction w then do
        let prev ← (fun st => (.ok (readSignal st id), st) : M Value)
        let w2 ← interp f (.call w [prev])
        fun st => (.ok w2, writeSignal st id w2)
      else
        fun st => (.ok w, writeSignal st id w)
  | f + 1, .call (.closure cctx rule) _ =>
      interp f (.exec (if isLazyNode rule then ruleOf rule else rule) cctx)
  | _ + 1, .call _ _ => throwM .notAFunction
  | f + 1, .setOp ref value =>
      match refSet ref with
      | some fn => interp f (.call fn [value])
      | none => pure .undefined

/-- Translation of `exec` (Interpreter.ts lines 30-42): set the
`currentContext` register to `data`, unwrap a lazy node directly or hand the
rule to json-logic, and restore the previous register on every exit path. -/
def exec (fuel : Nat) (logic : Value) (data : Ctx) : M Value :=
  interp hb fuel (.exec logic data)

/-- The json-logic tree walk `jsonLogic.apply(logic, data)` (restricted to the
modelled fragment). -/
def applyLogic (fuel : Nat) (logic : Value) (data : Ctx) : M Value :=
  interp hb fuel (.apply logic data)

/-- Invocation of a function value. -/
def callFn (fuel : Nat) (fn : Value) (args : List Value) : M Value :=
  interp hb fuel (.call fn args)

/-- Body of the `$set` operator (Interpreter.ts lines 63-68): invoke the
attached writer when present, otherwise return `undefined`. -/
def dollarSet (fuel : Nat) (ref value : Value) : M Value :=
  interp hb fuel (.setOp ref value)

/-- Translation of `runLogic` (Interpreter.ts lines 175-188): evaluate the
tree with `exec` under a fresh reactive root.  The owner tree and the
`dispose` handle have no observable effect on the claims and are not
modelled; the `result` field of the returned record is the value modelled
here. -/
def runLogic (fuel : Nat) (json : Value) (initialData : Ctx) : M Value :=
  exec hb fuel json initialData

end Interp

/-- Degenerate host-callback behaviour (every callback returns `undefined`),
used to instantiate theorems at concrete inputs. -/
def hb0 : String → List Value → Value := fun _ _ => .undefined

/-- Rule `{ "call": [ { "var": n } ] }`: look up the context entry `n` and
invoke it with no arguments. -/
def callVarRule (n : String) : Value :=
  .obj [("call", .arr [.obj [("var", .str n)]])]

/-- Initial data context of the `$show` scenario: the host callbacks `pos`
and `neg`. -/
def posNegContext : Ctx := [("pos", .hostFn "pos"), ("neg", .hostFn "neg")]

/-- The `$show` scenario rule: condition `c`, a lazy true branch calling
`pos` and a lazy false branch calling `neg`. -/
def showPosNegRule (c : Value) : Value :=
  .obj [("$show", .arr [c, mkLazy (callVarRule "pos"), mkLazy (callVarRule "neg")])]

/-- Initial data context of the `$for` scenario: the host callback `spy`. -/
def spyContext : Ctx := [("spy", .hostFn "spy")]

/-- The lazy child rule of the `$for` scenario:
`{ "call": [ { "var": "spy" }, { "var": "item" } ] }`. -/
def spyCallRule : Value :=
  .obj [("call", .arr [.obj [("var", .str "spy")], .obj [("var", .str "item")]])]

/-- The `$for` scenario rule over a list expression. -/
def forSpyRule (listExpr : Value) : Value :=
  .obj [("$for", .arr [listExpr, mkLazy spyCallRule])]

/-- Number of invocations of the host callback `name` recorded in a trace. -/
def countCalls (name : String) (tr : List (String × List Value)) : Nat :=
  (tr.filter (fun e => e.1 = name)).length

-- Helper lemmas (shared between several claims).

@[simp]
theorem mbind_apply (x : M α) (k : α → M β) (st : St) :
    (x >>= k) st
      = match x st with
        | (.ok a, st') => k a st'
        | (.error e, st') => (.error e, st') := rfl

@[simp]
theorem mpure_apply (a : α) (st : St) : (pure a : M α) st = (.ok a, st) := rfl

theorem getD_append_len (l : List Value) (v d : Value) :
    (l ++ [v]).getD l.length d = v := by
  induction l with
  | nil => rfl
  | cons x xs ih => simp [ih]

theorem set_append_len (l : List Value) (v w : Value) :
    (l ++ [v]).set l.length w = l ++ [w] := by
  induction l with
  | nil => rfl
  | cons x xs ih => simp [List.set, ih]

theorem normalizeArgs_not_arr (v : Value) (h : ∀ xs, v ≠ .arr xs) :
    normalizeArgs v = [v] := by
  cases v <;> first
    | rfl
    | exact absurd rfl (h _)

theorem evalList_self (g : Value → M Value) (xs : List Value)
    (h : ∀ x ∈ xs, ∀ s : St, g x s = (.ok x, s)) :
    ∀ s : St, evalList g xs s = (.ok xs, s) := by
  induction xs with
  | nil => intro s; rfl
  | cons x rest ih =>
      intro s
      simp [evalList, h x (by simp),
        ih (fun y hy s' => h y (by simp [hy]) s')]

theorem countCalls_append (name : String) (a b : List (String × List Value)) :
    countCalls name (a ++ b) = countCalls name a + countCalls name b := by
  simp [countCalls, List.filter_append]

theorem varOp_spy_binding (x : Value) :
    ∀ idx : Value,
      varOp (("item", x) :: ("index", idx) :: [("spy", .hostFn "spy")]) [.str "spy"]
        = .hostFn "spy" :=
  fun _ => rfl

theorem varOp_item_binding (x : Value) (hx : x ≠ .undefined) :
    ∀ idx : Value,
      varOp (("item", x) :: ("index", idx) :: [("spy", .hostFn "spy")]) [.str "item"]
        = x := by
  intro idx
  cases x <;> first
    | exact absurd rfl hx
    | rfl

theorem countCalls_spy_map (xs : List Value) :
    countCalls "spy" (xs.map (fun x => ("spy", [x]))) = xs.length := by
  induction xs with
  | nil => rfl
  | cons x rest ih => simpa [countCalls, List.filter] using ih

-- Claim theorems.

/-- C4: for every expression, data context, initial state and fuel, after a
call to `exec` returns or throws (any `Except` outcome, including errors
raised during evaluation), the module-level `currentContext` register holds
exactly the value it held before the call, so no context leaks across sibling
evaluations. -/
theorem exec_restores_currentContext (hb : String → List Value → Value)
    (fuel : Nat) (logic : Value) (data : Ctx) (st : St) :
    ((exec hb fuel logic data) st).2.reg = st.reg := by
  cases fuel with
  | zero => rfl
  | succ f => rfl

/-- C5: the `lambda` operator returns a function value that captures the
context current at definition time; invoking the returned closure evaluates
the lazy body against that captured context, and the invocation-time
arguments have no effect whatsoever on the invocation (they are discarded,
not injected into the context). -/
theorem lambda_discards_arguments (hb : String → List Value → Value)
    (r : Value) (d : Ctx) (st : St) :
    exec hb 4 (.obj [("lambda", mkLazy r)]) d st = (.ok (.closure d (mkLazy r)), st)
    ∧ (∀ (fuel : Nat) (args1 args2 : List Value) (s : St),
        callFn hb fuel (.closure d (mkLazy r)) args1 s
          = callFn hb fuel (.closure d (mkLazy r)) args2 s)
    ∧ (∀ (fuel : Nat) (args : List Value) (s : St),
        callFn hb (fuel + 1) (.closure d (mkLazy r)) args s = exec hb fuel r d s) := by
  refine ⟨rfl, ?_, ?_⟩
  · intro fuel a1 a2 s
    cases fuel with
    | zero => rfl
    | succ f => rfl
  · intro fuel args s
    rfl

/-- C8: the `$set` operator invokes the writer attached at the `set` property
of its first argument, passing it the value, whenever that property holds a
function (`refSet` is the translation of the guard
`ref && typeof ref.set === "function"`); for every other reference it
returns `undefined` without raising any error. -/
theorem set_invokes_writer_or_noop (hb : String → List Value → Value)
    (ref v : Value) (fuel : Nat) (st : St) :
    (∀ fn, refSet ref = some fn →
        dollarSet hb (fuel + 1) ref v st = callFn hb fuel fn [v] st)
    ∧ (refSet ref = none → dollarSet hb (fuel + 1) ref v st = (.ok .undefined, st)) := by
  constructor
  · intro fn h
    simp [dollarSet, callFn, interp, h]
  · intro h
    simp [dollarSet, interp, h]

/-- C8 witness: a signal reader has its paired writer attached, so `$set`
invokes it; a number has no writer, so `$set` is a no-op. -/
theorem set_invokes_writer_or_noop_witness :
    dollarSet hb0 2 (.getter 0) (.num 5) stInit = callFn hb0 1 (.setter 0) [.num 5] stInit
    ∧ dollarSet hb0 2 (.num 3) (.num 5) stInit = (.ok .undefined, stInit) :=
  ⟨(set_invokes_writer_or_noop hb0 (.getter 0) (.num 5) 1 stInit).1 (.setter 0) rfl,
   (set_invokes_writer_or_noop hb0 (.num 3) (.num 5) 1 stInit).2 rfl⟩

/-- C9 counterexample: the claim states that a value is recognised as a
LazyNode if and only if it is an object with exactly the two keys
`__lazy: true` and `rule`.  The object below carries those two keys plus an
additional key `extra`; the spec predicate (`specLazyNode`, written from the
spec wording) rejects it, yet the source `isLazyNode` accepts it, so the
claimed equivalence is false at this input. -/
theorem isLazyNode_extra_keys_counterexample :
    isLazyNode (.obj [("__lazy", .bool true), ("rule", .null), ("extra", .num 1)]) = true
    ∧ specLazyNode (.obj [("__lazy", .bool true), ("rule", .null), ("extra", .num 1)]) = false :=
  ⟨rfl, rfl⟩

/-- C9 amended: a value is recognised as a LazyNode if and only if it is an
object whose `__lazy` key holds literally `true` and which has a `rule` key —
additional keys are permitted. -/
theorem isLazyNode_characterization (v : Value) :
    isLazyNode v = true
      ↔ ∃ fs, v = .obj fs
          ∧ lookupField fs "__lazy" = some (.bool true)
          ∧ (lookupField fs "rule").isSome = true := by
  cases v <;> simp [isLazyNode]
  case obj fs =>
    rcases h : lookupField fs "__lazy" with _ | w
    · simp
    · cases w <;> simp_all
      case bool b => cases b <;> simp_all

/-- C9 amended witness: the three-key object of the counterexample satisfies
the amended characterisation. -/
theorem isLazyNode_characterization_witness :
    ∃ fs, Value.obj [("__lazy", .bool true), ("rule", .null), ("extra", .num 1)] = .obj fs
        ∧ lookupField fs "__lazy" = some (.bool true)
        ∧ (lookupField fs "rule").isSome = true :=
  (isLazyNode_characterization
    (.obj [("__lazy", .bool true), ("rule", .null), ("extra", .num 1)])).mp rfl

/-- C10: the `seq` operator returns the value of its last argument
(`rules[rules.length - 1]`), and with zero arguments it returns `undefined`
(index `-1` of an empty JS array). -/
theorem seq_returns_last :
    seqOp [] = .undefined
    ∧ ∀ (vs : List Value) (h : vs ≠ []), seqOp vs = vs.getLast h := by
  constructor
  · rfl
  · intro vs h
    induction vs with
    | nil => exact absurd rfl h
    | cons x rest ih =>
        cases rest with
        | nil => rfl
        | cons y ys =>
            rw [List.getLast_cons (by simp), ← ih (by simp)]
            simp only [seqOp, jsIndex, List.length_cons]
            rw [if_neg (by omega), if_neg (by omega)]
            rw [show ((((ys.length + 1 + 1 : Nat) : Int) - 1)).toNat = ys.length + 1 by omega]
            rw [show ((((ys.length + 1 : Nat) : Int) - 1)).toNat = ys.length by omega]
            rfl

/-- C10 witness. -/
theorem seq_returns_last_witness :
    seqOp [.num 1, .num 2] = .num 2 ∧ ([Value.num 1, .num 2] ≠ ([] : List Value)) :=
  ⟨(seq_returns_last.2 [.num 1, .num 2] (by simp)).trans rfl, by simp⟩

/-- C6: a first call to `Global` with an unregistered key and a present
initial value creates and registers a fresh signal holding that value, and
every call to `Global` on a state in which the key is registered — with or
without an initial value, which is ignored — returns that same signal and
leaves the state untouched.  In particular registering `k` with `1` and then
reading `Global k` again yields a handle whose reader gives `1`. -/
theorem global_registry_at_most_one_signal (k : String) (v : Value) (st : St)
    (hv : v ≠ .undefined) (hk : lookupG st.globals k = none) :
    Global k v st
      = (.ok st.signals.length,
         { st with signals := st.signals ++ [v],
                   globals := (k, st.signals.length) :: st.globals })
    ∧ lookupG ((k, st.signals.length) :: st.globals) k = some st.signals.length
    ∧ readSignal
        { st with signals := st.signals ++ [v],
                  globals := (k, st.signals.length) :: st.globals }
        st.signals.length = v
    ∧ (∀ (w : Value) (s : St) (i : Nat),
        lookupG s.globals k = some i → Global k w s = (.ok i, s)) := by
  refine ⟨?_, ?_, ?_, ?_⟩
  · unfold Global
    rw [hk]
    cases v with
    | undefined => exact absurd rfl hv
    | _ => rfl
  · simp [lookupG]
  · simp [readSignal, getD_append_len]
  · intro w s i hi
    unfold Global
    rw [hi]

/-- C6 witness: the round trip of the spec scenario, `Global "k" 1` then
`Global "k"` with no initial value. -/
theorem global_registry_at_most_one_signal_witness :
    Global "k" (.num 1) stInit
      = (.ok 0, { stInit with signals := [.num 1], globals := [("k", 0)] })
    ∧ lookupG [("k", 0)] "k" = some 0
    ∧ readSignal { stInit with signals := [.num 1], globals := [("k", 0)] } 0 = .num 1
    ∧ (∀ (w : Value) (s : St) (i : Nat),
        lookupG s.globals "k" = some i → Global "k" w s = (.ok i, s)) :=
  global_registry_at_most_one_signal "k" (.num 1) stInit (by simp) rfl

/-- C7: calling `Global` on an unregistered key with no (`undefined`) initial
value throws the registry lookup failure and leaves the state — in particular
the registry — unchanged, and the error propagates out of the evaluation of a
`$global` rule, aborting that evaluation step. -/
theorem global_missing_key_throws (hb : String → List Value → Value)
    (k : String) (d : Ctx) (st : St)
    (hk : lookupG st.globals k = none) :
    Global k .undefined st = (.error (.globalNotFound k), st)
    ∧ runLogic hb 4 (.obj [("$global", .str k)]) d st
      = (.error (.globalNotFound k), st) := by
  have h1 : ∀ s : St, lookupG s.globals k = none →
      Global k .undefined s = (.error (.globalNotFound k), s) := by
    intro s hs
    unfold Global
    rw [hs]
  constructor
  · exact h1 st hk
  · have hg : Global k .undefined { st with reg := d }
        = (.error (.globalNotFound k), { st with reg := d }) :=
      h1 { st with reg := d } hk
    simp [runLogic, exec, interp, evalList, isLazyNode, lookupField, normalizeArgs, hg, throwM]

/-- C7 witness. -/
theorem global_missing_key_throws_witness :
    Global "missing" .undefined stInit = (.error (.globalNotFound "missing"), stInit)
    ∧ runLogic hb0 4 (.obj [("$global", .str "missing")]) [] stInit
      = (.error (.globalNotFound "missing"), stInit) :=
  global_missing_key_throws hb0 "missing" [] stInit rfl

/-- C1: evaluating `{ "$state": v }` with `runLogic` yields a signal reader
with the paired writer attached as its `set` property; calling the reader
with no arguments returns the initial value `v`, and after invoking the
writer with a new value `w` the reader returns `w`.  The hypotheses delimit
the quantification domain of the claim: `v` must denote itself as a single
argument under the rule syntax (`hv` — it is not an operator node — and
`harr` — an array in argument position would spread into an argument list),
and `w` must not be a function value (solid setters interpret a function
argument as an updater of the previous value, not as the value to store). -/
theorem runLogic_state_reader_writer (hb : String → List Value → Value)
    (v w : Value) (st : St)
    (hv : ∀ (d : Ctx) (s : St), applyLogic hb 5 v d s = (.ok v, s))
    (harr : ∀ xs, v ≠ .arr xs)
    (hw : isFunction w = false)
    (_hne : v ≠ w) :
    runLogic hb 7 (.obj [("$state", v)]) [] st
      = (.ok (.getter st.signals.length), { st with signals := st.signals ++ [v] })
    ∧ refSet (.getter st.signals.length) = some (.setter st.signals.length)
    ∧ callFn hb 1 (.getter st.signals.length) [] { st with signals := st.signals ++ [v] }
      = (.ok v, { st with signals := st.signals ++ [v] })
    ∧ callFn hb 1 (.setter st.signals.length) [w] { st with signals := st.signals ++ [v] }
      = (.ok w, { st with signals := st.signals ++ [w] })
    ∧ callFn hb 1 (.getter st.signals.length) [] { st with signals := st.signals ++ [w] }
      = (.ok w, { st with signals := st.signals ++ [w] }) := by
  have hv' : ∀ (d : Ctx) (s : St), interp hb 5 (.apply v d) s = (.ok v, s) := hv
  refine ⟨?_, rfl, ?_, ?_, ?_⟩
  · simp [runLogic, exec, interp, evalList, isLazyNode, lookupField,
      normalizeArgs_not_arr v harr, hv', newSignal]
  · simp [callFn, interp, readSignal, getD_append_len]
  · simp [callFn, interp, hw, writeSignal, set_append_len]
  · simp [callFn, interp, readSignal, getD_append_len]

/-- C1 witness: the spec scenario with initial value `0` and new value `5`. -/
theorem runLogic_state_reader_writer_witness :
    (∀ (d : Ctx) (s : St), applyLogic hb0 5 (.num 0) d s = (.ok (.num 0), s))
    ∧ (runLogic hb0 7 (.obj [("$state", .num 0)]) [] stInit
        = (.ok (.getter 0), { stInit with signals := [.num 0] })
      ∧ refSet (.getter 0) = some (.setter 0)
      ∧ callFn hb0 1 (.getter 0) [] { stInit with signals := [.num 0] }
        = (.ok (.num 0), { stInit with signals := [.num 0] })
      ∧ callFn hb0 1 (.setter 0) [.num 5] { stInit with signals := [.num 0] }
        = (.ok (.num 5), { stInit with signals := [.num 5] })
      ∧ callFn hb0 1 (.getter 0) [] { stInit with signals := [.num 5] }
        = (.ok (.num 5), { stInit with signals := [.num 5] })) :=
  ⟨fun _ _ => rfl,
   runLogic_state_reader_writer hb0 (.num 0) (.num 5) stInit
     (fun _ _ => rfl) (fun _ => by simp) rfl (by simp)⟩

/-- C2: evaluating the `$show` scenario rule — any truthy condition value, a
lazy true branch that calls the host callback `pos`, a lazy false branch that
calls the host callback `neg` — appends exactly one invocation of `pos` (with
no arguments) to the trace and none of `neg`, for every host-callback
behaviour `hb` and every starting state.  The hypotheses delimit the
quantification: the condition value denotes itself under the rule syntax
(`hc`), is truthy (`ht`), and is not itself a lazy node (`hl` — a lazy
condition would be unwrapped and evaluated instead of being used directly). -/
theorem show_truthy_runs_pos_never_neg (hb : String → List Value → Value)
    (c : Value) (st : St)
    (hc : ∀ s : St, applyLogic hb 6 c posNegContext s = (.ok c, s))
    (ht : truthy c = true)
    (hl : isLazyNode c = false) :
    runLogic hb 8 (showPosNegRule c) posNegContext st
      = (.ok .undefined, { st with trace := st.trace ++ [("pos", [])] })
    ∧ countCalls "pos" (st.trace ++ [("pos", [])]) = countCalls "pos" st.trace + 1
    ∧ countCalls "neg" (st.trace ++ [("pos", [])]) = countCalls "neg" st.trace := by
  have hc' : ∀ s : St, interp hb 6 (.apply c posNegContext) s = (.ok c, s) := hc
  simp only [posNegContext] at hc'
  simp only [isLazyNode] at hl
  simp only [truthy, ne_eq, decide_not] at ht
  refine ⟨?_, ?_, ?_⟩
  · simp [runLogic, exec, interp, evalList, showRun, showPosNegRule, mkLazy,
      callVarRule, isLazyNode, lookupField, ruleOf, normalizeArgs, hc', ht, hl,
      getReg, pushTrace, varOp, splitDots, splitDotsAux, jsStringOf, varPath,
      varSteps, isFunction, truthy, posNegContext]
  · simp [countCalls_append, countCalls]
  · simp [countCalls_append, countCalls]

/-- C2 witness: the spec scenario with condition literally `true`. -/
theorem show_truthy_runs_pos_never_neg_witness :
    (∀ s : St, applyLogic hb0 6 (.bool true) posNegContext s = (.ok (.bool true), s))
    ∧ truthy (.bool true) = true
    ∧ isLazyNode (.bool true) = false
    ∧ (runLogic hb0 8 (showPosNegRule (.bool true)) posNegContext stInit
        = (.ok .undefined, { stInit with trace := [("pos", [])] })
      ∧ countCalls "pos" ((stInit.trace) ++ [("pos", [])]) = countCalls "pos" stInit.trace + 1
      ∧ countCalls "neg" ((stInit.trace) ++ [("pos", [])]) = countCalls "neg" stInit.trace) :=
  ⟨fun _ => rfl, rfl, rfl,
   show_truthy_runs_pos_never_neg hb0 (.bool true) stInit (fun _ => rfl) rfl rfl⟩

/-- Helper for C3: the initial `mapArray` pass of the `$for` scenario invokes
the spy once per item, in list order, with the item bound as `item` in the
child context. -/
theorem forRun_spy_trace (hb : String → List Value → Value) (xs : List Value)
    (hval : ∀ x ∈ xs, x ≠ Value.undefined) :
    ∀ (i : Nat) (s : St),
      forRun
        (fun item j =>
          interp hb 5 (.exec spyCallRule (forChildCtx spyContext item (.acc (.num j)))))
        xs i s
      = (.ok .undefined, { s with trace := s.trace ++ xs.map (fun x => ("spy", [x])) }) := by
  induction xs with
  | nil => intro i s; simp [forRun]
  | cons x rest ih =>
      intro i s
      have hhead : x ≠ Value.undefined := hval x (by simp)
      have hx : interp hb 5 (.exec spyCallRule (forChildCtx spyContext x (.acc (.num i)))) s
          = (.ok (hb "spy" [x]), { s with trace := s.trace ++ [("spy", [x])] }) := by
        simp [interp, evalList, spyCallRule, forChildCtx, spyContext, isLazyNode,
          lookupField, normalizeArgs, getReg, pushTrace, isFunction,
          varOp_spy_binding, varOp_item_binding x hhead]
      simp [forRun, hx, ih (fun y hy => hval y (by simp [hy])) (i + 1)]

/-- C3: evaluating the `$for` scenario rule over a list expression whose
elements denote themselves (`hxs`) invokes the host callback `spy` exactly
once per element, in list order, with the element as its single argument —
the appended trace is the item list verbatim — and the child context built
for each iteration overlays bindings for `item` and `index` onto the context
captured at the `$for` call site, leaving every other binding untouched.
The hypothesis `hval` excludes `undefined` elements: `undefined` is not
denotable in a JSON list literal, and the `var` lookup of the child rule
coerces a binding holding `undefined` to the not-found default `null`, so an
`undefined` item would reach the spy as `null` rather than as itself. -/
theorem for_iterates_items_in_order (hb : String → List Value → Value)
    (xs : List Value) (st : St)
    (hxs : ∀ x ∈ xs, ∀ s : St, applyLogic hb 5 x spyContext s = (.ok x, s))
    (hval : ∀ x ∈ xs, x ≠ Value.undefined) :
    runLogic hb 8 (forSpyRule (.arr xs)) spyContext st
      = (.ok .undefined, { st with trace := st.trace ++ xs.map (fun x => ("spy", [x])) })
    ∧ countCalls "spy" (st.trace ++ xs.map (fun x => ("spy", [x])))
      = countCalls "spy" st.trace + xs.length
    ∧ (∀ (ctx : Ctx) (item idx : Value),
        lookupField (forChildCtx ctx item idx) "item" = some item
        ∧ lookupField (forChildCtx ctx item idx) "index" = some idx
        ∧ ∀ k, k ≠ "item" → k ≠ "index" →
            lookupField (forChildCtx ctx item idx) k = lookupField ctx k) := by
  have hxs' : ∀ x ∈ xs, ∀ s : St, interp hb 5 (.apply x spyContext) s = (.ok x, s) := hxs
  simp only [spyContext] at hxs'
  refine ⟨?_, ?_, ?_⟩
  · have hlist : ∀ s : St,
        evalList (fun x => interp hb 5 (.apply x [("spy", Value.hostFn "spy")])) xs s
          = (.ok xs, s) :=
      evalList_self _ xs hxs'
    have hfor := forRun_spy_trace hb xs hval
    simp only [spyCallRule, forChildCtx, spyContext, mkLazy] at hfor
    simp [interp, evalList, isLazyNode, lookupField, ruleOf, normalizeArgs,
      getReg, pushTrace, isFunction] at hfor
    simp [runLogic, exec, interp, evalList, forSpyRule, mkLazy, spyCallRule,
      isLazyNode, lookupField, ruleOf, normalizeArgs, hlist, getReg, pushTrace,
      isFunction, toItems, forChildCtx, spyContext, hfor]
  · simp [countCalls_append, countCalls_spy_map]
  · intro ctx item idx
    refine ⟨rfl, rfl, ?_⟩
    intro k hk1 hk2
    simp [forChildCtx, lookupField, Ne.symm hk1, Ne.symm hk2]

/-- C3 witness: the spec scenario over the list `[1, 2, 3]`. -/
theorem for_iterates_items_in_order_witness :
    (∀ x ∈ [Value.num 1, .num 2, .num 3], ∀ s : St,
        applyLogic hb0 5 x spyContext s = (.ok x, s))
    ∧ (∀ x ∈ [Value.num 1, .num 2, .num 3], x ≠ Value.undefined)
    ∧ (runLogic hb0 8 (forSpyRule (.arr [.num 1, .num 2, .num 3])) spyContext stInit
        = (.ok .undefined,
           { stInit with
               trace := [("spy", [.num 1]), ("spy", [.num 2]), ("spy", [.num 3])] })
      ∧ countCalls "spy"
          (stInit.trace ++ [Value.num 1, .num 2, .num 3].map (fun x => ("spy", [x])))
        = countCalls "spy" stInit.trace + 3
      ∧ (∀ (ctx : Ctx) (item idx : Value),
          lookupField (forChildCtx ctx item idx) "item" = some item
          ∧ lookupField (forChildCtx ctx item idx) "index" = some idx
          ∧ ∀ k, k ≠ "item" → k ≠ "index" →
              lookupField (forChildCtx ctx item idx) k = lookupField ctx k)) :=
  ⟨fun x hx s => by
      simp only [List.mem_cons, List.not_mem_nil, or_false] at hx
      rcases hx with rfl | rfl | rfl <;> rfl,
   fun x hx => by
      simp only [List.mem_cons, List.not_mem_nil, or_false] at hx
      rcases hx with rfl | rfl | rfl <;> simp,
   for_iterates_items_in_order hb0 [.num 1, .num 2, .num 3] stInit
     (fun x hx s => by
      simp only [List.mem_cons, List.not_mem_nil, or_false] at hx
      rcases hx with rfl | rfl | rfl <;> rfl)
     (fun x hx => by
      simp only [List.mem_cons, List.not_mem_nil, or_false] at hx
      rcases hx with rfl | rfl | rfl <;> simp)⟩

end Renderless
